import Mathlib

/-!
Shallow embedding of the advanced-vector container
(src/advanced-vector/vector.h): a `RawMemory<T>` block of uninitialized
slots plus a `Vector<T>` tracking a logical size, with the growth,
insert, erase and assignment operations of the source, including an
explicit model of the exception paths of the bulk-construction calls
(`std::uninitialized_copy_n` / `std::uninitialized_move_n`) so that
object lifetimes (constructed / destroyed / leaked) can be reasoned
about.
-/

set_option autoImplicit false

namespace AdvancedVector

variable {α : Type}

/-- Value-level state of a `Vector<T>`: `elems` are the live, constructed
elements at slots `[0, size_)` of the owned `RawMemory` buffer (so
`size_ = elems.length`), and `capacity` is `data_.Capacity()`. -/
structure Vector (α : Type) where
  elems : List α
  capacity : Nat
  deriving DecidableEq, Repr

/-- A raw buffer of slots, as `RawMemory<T>` plus the caller-managed
object lifetimes: slot `i` holds `some x` when a `T` with value `x` has
been constructed there and not yet destroyed, `none` when the slot is
raw memory. -/
abbrev Buf (α : Type) := List (Option α)

/-- A freshly allocated `RawMemory<T>` block of `n` slots: all raw. -/
def rawBuf (α : Type) (n : Nat) : Buf α := List.replicate n none

/-- The objects currently constructed (and not destroyed) in a buffer,
in slot order. -/
def liveObjs (b : Buf α) : List α := b.filterMap id

/-- Sequential placement-construction of the values `src` into slots
`start, start+1, ...` of `b` (the loop inside
`std::uninitialized_copy_n` / `std::uninitialized_move_n` when no
constructor call fails). -/
def writeSeq : Buf α → Nat → List α → Buf α
  | b, _, [] => b
  | b, s, x :: xs => writeSeq (b.set s (some x)) (s + 1) xs

/-- Sequential destruction of the objects in slots
`[start, start + n)` of `b`: the loop of `std::destroy_n` (and of the
source's own `DestroyN`). -/
def destroyRange : Buf α → Nat → Nat → Buf α
  | b, _, 0 => b
  | b, s, n + 1 => destroyRange (b.set s none) (s + 1) n

/-- Models `std::uninitialized_copy_n(src, src.length, dst + start)`
(or the `move_n` variant) where the element constructor invoked for
source index `j` may throw, indicated by `failAt = some j` with `j`
in range.  On success the constructed slots are `[start, start +
src.length)`.  On failure the algorithm has constructed slots
`[start, start + j)` and then destroys exactly those before
rethrowing, so the buffer it hands back to the unwinding caller is
returned in the `error` case. -/
def uninitCopyN (dst : Buf α) (start : Nat) (src : List α) (failAt : Option Nat) :
    Except (Buf α) (Buf α) :=
  match failAt with
  | some j =>
    if j < src.length then
      Except.error (destroyRange (writeSeq dst start (src.take j)) start j)
    else
      Except.ok (writeSeq dst start src)
  | none => Except.ok (writeSeq dst start src)

/-- Models `Vector::MoveOrCopy(from_vec, n, target_vec)` on the buffer
level, in the configuration where the element-wise transfer constructor
can throw (the `std::uninitialized_copy_n` branch, taken when `T` is
copyable and its move constructor is not `noexcept`; the throwing-move
branch behaves the same for lifetime accounting): it transfers the `n`
objects at `src` slots `[srcStart, srcStart + n)` into `dst` slots
starting at `dstStart`, and then — still inside `MoveOrCopy` — runs
`std::destroy_n(from_vec, n)` on the source slots.  On a constructor
failure the bulk-construction call rolls back its own partial work and
the exception escapes `MoveOrCopy` before `destroy_n` runs, so the
source slots are untouched; the pair returned in either case is
`(source buffer, target buffer)` after the call. -/
def MoveOrCopy (src : Buf α) (srcStart n : Nat) (dst : Buf α) (dstStart : Nat)
    (failAt : Option Nat) : Except (Buf α × Buf α) (Buf α × Buf α) :=
  let vals := ((src.drop srcStart).take n).filterMap id
  match uninitCopyN dst dstStart vals failAt with
  | Except.error dstAfter => Except.error (src, dstAfter)
  | Except.ok dstAfter => Except.ok (destroyRange src srcStart n, dstAfter)

/-- Models `Vector::PopBack`: if `size_ > 0`, destroy the element at
`size_ - 1` and decrement `size_`; otherwise nothing happens.  A total
function: the operation never throws. -/
def PopBack (v : Vector α) : Vector α :=
  if 0 < v.elems.length then
    { elems := v.elems.dropLast, capacity := v.capacity }
  else v

/-- Models `Vector::Reserve(new_capacity)`: returns immediately when
`new_capacity <= data_.Capacity()`; otherwise relocates into a fresh
`RawMemory` of exactly `new_capacity` slots (element values are
unchanged by the relocation). -/
def Reserve (v : Vector α) (newCapacity : Nat) : Vector α :=
  if newCapacity ≤ v.capacity then v
  else { elems := v.elems, capacity := newCapacity }

/-- Models `Vector::EmplaceBack` / `Vector::PushBack`, success path.  When
`size_ == Capacity()` it allocates `RawMemory(size_ == 0 ? 1 : size_ * 2)`,
constructs the new element at slot `size_` of the new buffer, relocates
the old elements into slots `[0, size_)`, destroys the originals and
swaps buffers; otherwise it constructs in place at slot `size_`.
Either way `size_` increments. -/
def EmplaceBack (v : Vector α) (x : α) : Vector α :=
  if v.elems.length = v.capacity then
    { elems := v.elems ++ [x]
      capacity := if v.elems.length = 0 then 1 else v.elems.length * 2 }
  else
    { elems := v.elems ++ [x], capacity := v.capacity }

/-- Models `Vector::PushBack(value)`: forwards to `EmplaceBack`. -/
def PushBack (v : Vector α) (x : α) : Vector α := EmplaceBack v x

/-- Models `std::move_backward(begin() + i, end() - 1, end())` acting on a
buffer of live values `b` (of length `size_ + 1`, the last slot having
just received a move of the old last element): slots `(i, size_]`
receive the old values of slots `[i, size_)`; slots `[0, i]` keep their
values. -/
def moveBackward (b : List α) (i : Nat) : List α :=
  b.take (i + 1) ++ (b.drop i).dropLast

/-- Models `std::move(begin() + i + 1, end(), begin() + i)` acting on the live
values `b`: slots `[i, size_ - 1)` receive the old values of slots
`(i, size_)`; the last slot keeps its (moved-from) value, which the
following `PopBack` destroys. -/
def moveForward (b : List α) (i : Nat) : List α :=
  b.take i ++ b.drop (i + 1) ++ b.drop (b.length - 1)

/-- Models `Vector::Erase(pos)` with `i = pos - begin()`: shifts the run after
`pos` one slot left by forward move-assignment, pops the vacated last
slot, and returns `begin() + i` (modeled as the index `i`). -/
def Erase (v : Vector α) (i : Nat) : Vector α × Nat :=
  let shifted := moveForward v.elems i
  (PopBack { elems := shifted, capacity := v.capacity }, i)

/-- Models `Vector::Emplace(pos, args...)`, success path, with
`i = pos - begin()`.  Branches exactly as the source: `pos == end()`
delegates to `EmplaceBack`; `size_ == Capacity()` reallocates into a
buffer of `size_ == 0 ? 1 : size_ * 2` slots, constructing the new
element at slot `i` and transferring prefix and suffix around it; the
remaining branch builds the argument into a temporary, move-constructs
the last element into the end slot, shifts `[i, size_ - 1)` backward
and move-assigns the temporary into slot `i`.  Returns the new state
and the returned iterator's index. -/
def Emplace (v : Vector α) (i : Nat) (x : α) : Vector α × Nat :=
  if i = v.elems.length then
    (EmplaceBack v x, i)
  else if v.elems.length = v.capacity then
    ({ elems := v.elems.take i ++ x :: v.elems.drop i
       capacity := if v.elems.length = 0 then 1 else v.elems.length * 2 }, i)
  else
    let temp := x
    let withLast := v.elems ++ [v.elems.getLastD temp]
    ({ elems := (moveBackward withLast i).set i temp, capacity := v.capacity }, i)

/-- Models `Vector::Insert(pos, value)`: a thin wrapper over `Emplace`. -/
def Insert (v : Vector α) (i : Nat) (x : α) : Vector α × Nat := Emplace v i x

/-- Models `Vector::Resize(new_size)`; `dflt` stands for the value produced by
the value-initialization `T()` of the new slots. -/
def Resize (v : Vector α) (newSize : Nat) (dflt : α) : Vector α :=
  if v.elems.length = newSize then v
  else if newSize < v.elems.length then
    { elems := v.elems.take newSize, capacity := v.capacity }
  else
    let r := Reserve v newSize
    { elems := r.elems ++ List.replicate (newSize - v.elems.length) dflt
      capacity := r.capacity }

/-- Models `RawMemory::Swap` / `Vector::Swap`: exchanges buffer ownership and
sizes field-wise; never touches element data. -/
def SwapVec (a b : Vector α) : Vector α × Vector α :=
  ({ elems := b.elems, capacity := b.capacity },
   { elems := a.elems, capacity := a.capacity })

/-- Models the move constructor `Vector(Vector&& other) noexcept`, whose body is `Swap(other)`: the constructed
object starts default (no buffer, `size_ = 0`, capacity 0) and swaps
with `other`.  Returns `(the new vector, other after the call)`. -/
def MoveConstruct (other : Vector α) : Vector α × Vector α :=
  SwapVec { elems := [], capacity := 0 } other

/-- Outcome of a growth-triggered `EmplaceBack` whose relocation step
threw: `vec` is the vector as the exception escapes (the member
`data_` and `size_` were never modified), and `leaked` are the objects
still constructed in the temporary buffer at the moment its
`~RawMemory()` runs — that destructor only deallocates, it never calls
element destructors, so these objects are never destroyed. -/
structure PushFail (α : Type) where
  vec : Vector α
  leaked : List α
  deriving DecidableEq, Repr

/-- The `size_ == Capacity()` branch of `Vector::EmplaceBack`, with the
element lifetimes of the temporary buffer tracked and the relocation
step allowed to fail (`failAt = some j`: the transfer constructor for
old element `j` throws; the construction of the new element itself is
taken to succeed).  The source wraps the relocation in no try/catch:
on failure the exception propagates directly out of `EmplaceBack` and
the local `temp_data` is deallocated raw. -/
def EmplaceBackGrow (v : Vector α) (x : α) (failAt : Option Nat) :
    Except (PushFail α) (Vector α) :=
  let size := v.elems.length
  let newCap := if size = 0 then 1 else size * 2
  let temp0 : Buf α := rawBuf α newCap
  let temp1 := temp0.set size (some x)
  match uninitCopyN temp1 0 v.elems failAt with
  | Except.error tempAfter =>
      Except.error { vec := v, leaked := liveObjs tempAfter }
  | Except.ok tempAfter =>
      Except.ok { elems := liveObjs tempAfter, capacity := newCap }

/-- Outcome of the reallocating branch of `Vector::Emplace` when one of
the two `MoveOrCopy` transfers threw: `oldBuf` is the lifetime state of
the member buffer `data_` as the exception escapes (`size_` and the
buffer pointer are unchanged, so the vector still claims `size` live
elements there), and `leaked` are the objects left constructed in the
temporary buffer when it is deallocated raw. -/
structure EmplaceFail (α : Type) where
  oldBuf : Buf α
  size : Nat
  leaked : List α
  deriving DecidableEq, Repr

/-- The `size_ == Capacity()`, `pos != end()` branch of
`Vector::Emplace`, element lifetimes tracked on both buffers.
`i = pos - begin()`; the construction of the new element at slot `i`
of the new buffer is taken to succeed; `failPre` / `failSuf` say
whether (and at which source offset) the prefix respectively suffix
`MoveOrCopy` transfer throws.  The source wraps each transfer in a
try/catch: a prefix failure destroys `temp_vec[i]` and rethrows, a
suffix failure runs `std::destroy_n(temp_vec.GetAddress(), i + 1)` and
rethrows; on success the buffers are swapped and `size_` increments. -/
def EmplaceGrow (v : Vector α) (i : Nat) (x : α)
    (failPre failSuf : Option Nat) : Except (EmplaceFail α) (Vector α × Nat) :=
  let size := v.elems.length
  let newCap := if size = 0 then 1 else size * 2
  let old0 : Buf α := v.elems.map some
  let temp0 : Buf α := rawBuf α newCap
  let temp1 := temp0.set i (some x)
  match MoveOrCopy old0 0 i temp1 0 failPre with
  | Except.error (old1, tempA) =>
      let tempB := tempA.set i none
      Except.error { oldBuf := old1, size := size, leaked := liveObjs tempB }
  | Except.ok (old1, temp2) =>
    match MoveOrCopy old1 i (size - i) temp2 (i + 1) failSuf with
    | Except.error (old2, tempA) =>
        let tempB := destroyRange tempA 0 (i + 1)
        Except.error { oldBuf := old2, size := size, leaked := liveObjs tempB }
    | Except.ok (_old2, temp3) =>
        Except.ok ({ elems := liveObjs temp3, capacity := newCap }, i)

/-- The heap of allocated raw blocks, for reasoning about buffer
identity and aliasing: index = block identity (what `operator new`
returned), entry = the values held in the block.  `operator new`
always yields a block distinct from every live one, modeled by
appending. -/
abbrev Store (α : Type) := List (List α)

/-- Mutation of the contents of block `i` of the store (any writes the
owner of that block performs). -/
def storeWrite (s : Store α) (i : Nat) (c : List α) : Store α := s.set i c

/-- Models `Vector(const Vector& other)` at the store level: allocates a fresh
block (`data_(other.size_)`) and copy-constructs `other`'s elements
into it in order; returns the store after the allocation and the new
block's identity. -/
def CopyConstructStore (s : Store α) (src : Nat) : Store α × Nat :=
  (s ++ [s.getD src []], s.length)

/-- Models `Vector(const Vector& other)` with the lifetimes of the new buffer
tracked and the copy loop allowed to fail (`failAt = some j`: the copy
constructor of source element `j` throws).  On failure
`std::uninitialized_copy_n` destroys the objects it constructed, the
exception unwinds the member initialization, and `~RawMemory()`
releases the new block; the `error` value lists the objects (if any)
still constructed in that block when it is released. -/
def CopyConstructTracked (src : List α) (failAt : Option Nat) :
    Except (List α) (Vector α) :=
  match uninitCopyN (rawBuf α src.length) 0 src failAt with
  | Except.error bufAfter => Except.error (liveObjs bufAfter)
  | Except.ok bufAfter => Except.ok { elems := liveObjs bufAfter, capacity := src.length }

/-- Models `Vector::operator=(const Vector& rhs)`.  `same` is the aliasing
test `this == &rhs`; when it holds the body is skipped entirely.
Otherwise: if `data_.Capacity() < rhs.size_`, build `Vector
rhs_copy(rhs)` and swap it in; else overwrite the common prefix by
`std::copy` and either destroy the excess elements (`rhs` shorter) or
copy-construct `rhs`'s excess tail into the raw slots (`rhs` not
shorter), finally setting `size_ = rhs.size_`. -/
def copyAssign (lhs rhs : Vector α) (same : Bool) : Vector α :=
  if same then lhs
  else if lhs.capacity < rhs.elems.length then
    { elems := rhs.elems, capacity := rhs.elems.length }
  else if rhs.elems.length < lhs.elems.length then
    let overwritten := rhs.elems ++ lhs.elems.drop rhs.elems.length
    { elems := overwritten.take rhs.elems.length, capacity := lhs.capacity }
  else
    let overwritten := rhs.elems.take lhs.elems.length ++ lhs.elems.drop lhs.elems.length
    { elems := overwritten ++ rhs.elems.drop lhs.elems.length, capacity := lhs.capacity }

/-! ### Buffer lemmas -/

theorem writeSeq_set_lt (v : Option α) (l : List α) : ∀ (b : Buf α) (s t : Nat), s < t →
    (writeSeq b t l).set s v = writeSeq (b.set s v) t l := by
  induction l with
  | nil => intro b s t _; rfl
  | cons x xs ih =>
    intro b s t hst
    show (writeSeq (b.set t (some x)) (t + 1) xs).set s v = _
    rw [ih (b.set t (some x)) s (t + 1) (Nat.lt_succ_of_lt hst),
      List.set_comm _ _ _ (Nat.ne_of_lt hst).symm]
    rfl

theorem writeSeq_rollback (l : List α) : ∀ (b : Buf α) (s : Nat),
    destroyRange (writeSeq b s l) s l.length = destroyRange b s l.length := by
  induction l with
  | nil => intro b s; rfl
  | cons x xs ih =>
    intro b s
    show destroyRange (writeSeq (b.set s (some x)) (s + 1) xs) s (xs.length + 1) = _
    show destroyRange ((writeSeq (b.set s (some x)) (s + 1) xs).set s none) (s + 1) xs.length = _
    rw [writeSeq_set_lt none xs (b.set s (some x)) s (s + 1) (Nat.lt_succ_self s),
      List.set_set, ih (b.set s none) (s + 1)]
    rfl

theorem destroyRange_rawBuf : ∀ (m s n : Nat),
    destroyRange (rawBuf α n) s m = rawBuf α n := by
  intro m
  induction m with
  | zero => intro s n; rfl
  | succ m ih =>
    intro s n
    show destroyRange ((rawBuf α n).set s none) (s + 1) m = _
    rw [show (rawBuf α n).set s none = rawBuf α n from List.set_replicate_self, ih]

theorem liveObjs_rawBuf (n : Nat) : liveObjs (rawBuf α n) = [] := by
  simp [liveObjs, rawBuf]

theorem writeSeq_cons (l : List α) : ∀ (z : Option α) (b : Buf α) (s : Nat),
    writeSeq (z :: b) (s + 1) l = z :: writeSeq b s l := by
  induction l with
  | nil => intro z b s; rfl
  | cons x xs ih =>
    intro z b s
    show writeSeq ((z :: b).set (s + 1) (some x)) (s + 2) xs = _
    show writeSeq (z :: b.set s (some x)) (s + 2) xs = _
    rw [ih (z) (b.set s (some x)) (s + 1)]
    rfl

theorem writeSeq_fill (l : List α) : ∀ (k : Nat),
    writeSeq (List.replicate (l.length + k) (none : Option α)) 0 l
      = l.map some ++ List.replicate k none := by
  induction l with
  | nil => intro k; simp [writeSeq]
  | cons x xs ih =>
    intro k
    show writeSeq ((List.replicate (xs.length + 1 + k) (none : Option α)).set 0 (some x)) 1 xs = _
    have hrep : List.replicate (xs.length + 1 + k) (none : Option α)
        = none :: List.replicate (xs.length + k) none := by
      rw [show xs.length + 1 + k = (xs.length + k) + 1 by omega, List.replicate_succ]
    rw [hrep]
    show writeSeq (some x :: List.replicate (xs.length + k) none) 1 xs = _
    rw [show (1 : Nat) = 0 + 1 from rfl, writeSeq_cons xs (some x) _ 0, ih k]
    rfl

theorem liveObjs_fill (l : List α) (k : Nat) :
    liveObjs (l.map some ++ List.replicate k (none : Option α)) = l := by
  simp [liveObjs, List.filterMap_append, List.filterMap_map]

/-! ### Operation-level lemmas -/

theorem EmplaceBack_elems (v : Vector α) (x : α) :
    (EmplaceBack v x).elems = v.elems ++ [x] := by
  unfold EmplaceBack; split <;> rfl

theorem moveBackward_set (l : List α) (x d : α) (i : Nat) (hi : i < l.length) :
    (moveBackward (l ++ [d]) i).set i x = l.take i ++ x :: l.drop i := by
  unfold moveBackward
  rw [List.take_append_of_le_length (by omega),
    List.drop_append_of_le_length (by omega), List.dropLast_concat,
    List.set_append_left i x (by simp only [List.length_take]; omega),
    List.take_succ, List.getElem?_eq_getElem hi,
    List.set_append_right i x (by simp only [List.length_take]; omega)]
  have hlt : (l.take i).length = i := by simp only [List.length_take]; omega
  rw [hlt]
  simp

theorem Emplace_elems (v : Vector α) (i : Nat) (x : α) (hi : i ≤ v.elems.length) :
    (Emplace v i x).1.elems = v.elems.take i ++ x :: v.elems.drop i := by
  unfold Emplace
  by_cases hend : i = v.elems.length
  · subst hend
    simp [EmplaceBack_elems]
  · have hi2 : i < v.elems.length := Nat.lt_of_le_of_ne hi hend
    rw [if_neg hend]
    by_cases hfull : v.elems.length = v.capacity
    · rw [if_pos hfull]
    · rw [if_neg hfull]
      show (moveBackward (v.elems ++ [v.elems.getLastD x]) i).set i x = _
      exact moveBackward_set v.elems x _ i hi2

theorem moveForward_length (l : List α) (i : Nat) (hi : i < l.length) :
    (moveForward l i).length = l.length := by
  simp [moveForward, List.length_take, List.length_drop]; omega

theorem Erase_elems (v : Vector α) (i : Nat) (hi : i < v.elems.length) :
    (Erase v i).1.elems = v.elems.take i ++ v.elems.drop (i + 1) := by
  obtain ⟨e, he⟩ : ∃ e, v.elems.drop (v.elems.length - 1) = [e] :=
    List.length_eq_one.mp (by simp [List.length_drop]; omega)
  have hpos : 0 < (moveForward v.elems i).length := by
    rw [moveForward_length v.elems i hi]; omega
  show (PopBack { elems := moveForward v.elems i, capacity := v.capacity }).elems = _
  rw [PopBack.eq_def]
  simp only [hpos, if_pos]
  show (moveForward v.elems i).dropLast = _
  unfold moveForward
  rw [he, List.dropLast_concat]

/-! ### Claim theorems -/

/-- C3, counterexample: move-constructing from a vector of capacity 1
leaves the source with capacity 0, not its original capacity 1 — the
constructor swaps with a default-constructed vector, so the source's
capacity is swapped away rather than kept.  This refutes the claim's
"its capacity unchanged" at a concrete input. -/
theorem c3_move_capacity_cex :
    (MoveConstruct (Vector.mk [(7 : Nat)] 1)).2.capacity = 0 ∧
      ¬ (MoveConstruct (Vector.mk [(7 : Nat)] 1)).2.capacity = 1 := by
  exact ⟨rfl, by decide⟩

/-- C3, amended: move construction never throws and never copies
element data (it is a plain field swap in the model); afterwards the
new vector holds the source's original elements in original order with
the source's original size and capacity, and the source is left empty
with size 0 and capacity 0. -/
theorem c3_move_construction (a : Vector α) :
    (MoveConstruct a).1.elems = a.elems ∧
      (MoveConstruct a).1.capacity = a.capacity ∧
      (MoveConstruct a).2.elems = [] ∧
      (MoveConstruct a).2.elems.length = 0 ∧
      (MoveConstruct a).2.capacity = 0 :=
  ⟨rfl, rfl, rfl, rfl, rfl⟩

/-- C6: `Insert` at any position `i ≤ size` yields exactly the original
elements with the new value inserted at index `i` (everything after
shifted right by one) and size incremented; `Erase` at the same index
on the result restores the original element sequence and the original
size. -/
theorem c6_insert_erase_round_trip (v : Vector α) (i : Nat) (x : α)
    (hi : i ≤ v.elems.length) :
    (Insert v i x).1.elems = v.elems.take i ++ x :: v.elems.drop i ∧
      (Insert v i x).1.elems.length = v.elems.length + 1 ∧
      (Erase (Insert v i x).1 i).1.elems = v.elems ∧
      (Erase (Insert v i x).1 i).1.elems.length = v.elems.length := by
  have hins : (Insert v i x).1.elems = v.elems.take i ++ x :: v.elems.drop i :=
    Emplace_elems v i x hi
  have hlen : (Insert v i x).1.elems.length = v.elems.length + 1 := by
    rw [hins]; simp only [List.length_append, List.length_cons, List.length_take,
      List.length_drop]; omega
  have hlt : i < (Insert v i x).1.elems.length := by rw [hlen]; omega
  have her : (Erase (Insert v i x).1 i).1.elems = v.elems := by
    rw [Erase_elems (Insert v i x).1 i hlt, hins]
    have h1 : (v.elems.take i ++ x :: v.elems.drop i).take i = v.elems.take i := by
      rw [List.take_append_of_le_length (by simp only [List.length_take]; omega),
        List.take_take]
      congr 1; omega
    have h2 : (v.elems.take i ++ x :: v.elems.drop i).drop (i + 1) = v.elems.drop i := by
      have hx : (v.elems.take i ++ [x]).length = i + 1 := by
        simp only [List.length_append, List.length_take, List.length_cons,
          List.length_nil]; omega
      rw [show v.elems.take i ++ x :: v.elems.drop i
            = (v.elems.take i ++ [x]) ++ v.elems.drop i by simp,
        List.drop_left' hx]
    rw [h1, h2, List.take_append_drop]
  exact ⟨hins, hlen, her, by rw [her]⟩

/-- C6 witness: the spec's concrete example, inserting 99 at position 1
of `[10, 20, 30]` and erasing it again. -/
theorem c6_insert_erase_round_trip_witness :
    (Insert (Vector.mk [(10 : Nat), 20, 30] 3) 1 99).1.elems = [10, 99, 20, 30] ∧
      (Erase (Insert (Vector.mk [(10 : Nat), 20, 30] 3) 1 99).1 1).1.elems = [10, 20, 30] := by
  have h := c6_insert_erase_round_trip (Vector.mk [(10 : Nat), 20, 30] 3) 1 99 (by decide)
  exact ⟨by rw [h.1]; rfl, h.2.2.1⟩



/-- C7: self-assignment takes the `this == &rhs` short-circuit of
`operator=(const Vector&)` and changes nothing: elements, size and
capacity are exactly as before. -/
theorem c7_self_assignment_noop (a : Vector α) : copyAssign a a true = a := rfl

/-- C8: `PopBack` is a total function (never throws); on a non-empty
vector it removes exactly the last element, decrementing the size and
keeping the capacity; on an empty vector it is a no-op. -/
theorem c8_popback_spec (v : Vector α) :
    (0 < v.elems.length →
      (PopBack v).elems = v.elems.dropLast ∧
        (PopBack v).elems.length = v.elems.length - 1 ∧
        (PopBack v).capacity = v.capacity) ∧
      (v.elems.length = 0 → PopBack v = v) := by
  constructor
  · intro h
    rw [PopBack.eq_def, if_pos h]
    exact ⟨rfl, by simp, rfl⟩
  · intro h
    rw [PopBack.eq_def, if_neg (by omega)]

/-- C8 witness: popping `[5]` empties it keeping capacity, and popping
an empty vector changes nothing. -/
theorem c8_popback_spec_witness :
    (PopBack (Vector.mk [(5 : Nat)] 1)).elems = [] ∧
      PopBack (Vector.mk ([] : List Nat) 0) = Vector.mk [] 0 := by
  refine ⟨?_, (c8_popback_spec (Vector.mk ([] : List Nat) 0)).2 rfl⟩
  have h := ((c8_popback_spec (Vector.mk [(5 : Nat)] 1)).1 (by decide)).1
  simpa using h

/-- C9: when `size < capacity`, `EmplaceBack` constructs the new
element in place at slot `size`: all existing elements keep their
values and positions, the capacity is unchanged, and size increments
by 1. -/
theorem c9_emplaceback_no_realloc (v : Vector α) (x : α)
    (h : v.elems.length < v.capacity) :
    (EmplaceBack v x).elems = v.elems ++ [x] ∧
      (EmplaceBack v x).elems.take v.elems.length = v.elems ∧
      (EmplaceBack v x).capacity = v.capacity ∧
      (EmplaceBack v x).elems.length = v.elems.length + 1 := by
  have hne : v.elems.length ≠ v.capacity := Nat.ne_of_lt h
  rw [EmplaceBack.eq_def, if_neg hne]
  exact ⟨rfl, List.take_left v.elems [x], rfl, by simp⟩

/-- C9 witness: appending 9 to `[1]` with spare capacity. -/
theorem c9_emplaceback_no_realloc_witness :
    (EmplaceBack (Vector.mk [(1 : Nat)] 2) 9).elems = [1, 9] ∧
      (EmplaceBack (Vector.mk [(1 : Nat)] 2) 9).capacity = 2 := by
  have h := c9_emplaceback_no_realloc (Vector.mk [(1 : Nat)] 2) 9 (by decide)
  exact ⟨by rw [h.1]; rfl, h.2.2.1⟩

/-- C10: `Erase(pos)` returns an iterator to the slot at the index
`pos` had: the element that followed the erased one now lives there
(when the erased element was not the last), or the returned iterator is
the new `end()` (when it was the last). -/
theorem c10_erase_iterator (v : Vector α) (i : Nat) (h : i < v.elems.length) :
    (Erase v i).2 = i ∧
      (i + 1 < v.elems.length → (Erase v i).1.elems[i]? = v.elems[i + 1]?) ∧
      (i + 1 = v.elems.length → (Erase v i).2 = (Erase v i).1.elems.length) := by
  refine ⟨rfl, ?_, ?_⟩
  · intro hlt
    rw [Erase_elems v i h, List.getElem?_append_right
      (by simp only [List.length_take]; omega)]
    have hlen : (v.elems.take i).length = i := by
      simp only [List.length_take]; omega
    rw [hlen, Nat.sub_self, List.getElem?_drop]
  · intro heq
    have : (Erase v i).1.elems.length = v.elems.length - 1 := by
      rw [Erase_elems v i h]
      simp only [List.length_append, List.length_take, List.length_drop]; omega
    rw [this]; show i = v.elems.length - 1; omega

/-- C10 witness: erasing the middle of `[4, 5, 6]` returns index 1 now
holding 6; erasing the last element of the result returns the new end
index. -/
theorem c10_erase_iterator_witness :
    (Erase (Vector.mk [(4 : Nat), 5, 6] 3) 1).1.elems[1]? = some 6 ∧
      (Erase (Vector.mk [(4 : Nat), 6] 3) 1).2 = (Erase (Vector.mk [(4 : Nat), 6] 3) 1).1.elems.length := by
  constructor
  · have h := (c10_erase_iterator (Vector.mk [(4 : Nat), 5, 6] 3) 1 (by decide)).2.1 (by decide)
    simpa using h
  · exact (c10_erase_iterator (Vector.mk [(4 : Nat), 6] 3) 1 (by decide)).2.2 (by decide)

/-- C4: appending to a full vector grows the capacity to
`max 1 (2 * capacity)` (the source computes `size_ == 0 ? 1 : size_ * 2`,
and at the growth point `size_ == Capacity()`); `Reserve(n)` with
`n ≤ capacity` is a no-op; and none of the mutating operations ever
decreases the capacity. -/
theorem c4_capacity_policy (v rhs : Vector α) (x dflt : α) (n i : Nat) (same : Bool) :
    (v.elems.length = v.capacity →
      (EmplaceBack v x).capacity = max 1 (2 * v.capacity)) ∧
      (n ≤ v.capacity → Reserve v n = v) ∧
      v.capacity ≤ (EmplaceBack v x).capacity ∧
      v.capacity ≤ (PushBack v x).capacity ∧
      v.capacity ≤ (PopBack v).capacity ∧
      v.capacity ≤ (Reserve v n).capacity ∧
      v.capacity ≤ (Resize v n dflt).capacity ∧
      v.capacity ≤ (Emplace v i x).1.capacity ∧
      v.capacity ≤ (Erase v i).1.capacity ∧
      v.capacity ≤ (copyAssign v rhs same).capacity := by
  have hemb : v.capacity ≤ (EmplaceBack v x).capacity := by
    unfold EmplaceBack; split_ifs with h1 h2 <;> simp <;> omega
  refine ⟨?_, ?_, hemb, hemb, ?_, ?_, ?_, ?_, ?_, ?_⟩
  · intro h
    unfold EmplaceBack
    rw [if_pos h, h]
    split_ifs with h0 <;> simp <;> omega
  · intro h
    unfold Reserve
    rw [if_pos h]
  · unfold PopBack; split_ifs <;> simp
  · unfold Reserve; split_ifs with h <;> simp <;> omega
  · unfold Resize Reserve; split_ifs <;> simp <;> omega
  · unfold Emplace EmplaceBack
    split_ifs <;> simp <;> omega
  · unfold Erase PopBack; split_ifs <;> simp
  · unfold copyAssign; split_ifs <;> simp <;> omega

/-- C4 witness: growing `[7]` at full capacity 1 yields capacity
`max 1 2 = 2`, and `Reserve 1` on it changes nothing. -/
theorem c4_capacity_policy_witness :
    (EmplaceBack (Vector.mk [(7 : Nat)] 1) 8).capacity = max 1 2 ∧
      Reserve (Vector.mk [(7 : Nat)] 1) 1 = Vector.mk [(7 : Nat)] 1 := by
  have h := c4_capacity_policy (Vector.mk [(7 : Nat)] 1) (Vector.mk [] 0) 8 0 1 0 false
  exact ⟨h.1 rfl, h.2.1 (by decide)⟩

/-- C5: copy construction allocates a fresh buffer (distinct from the
source's, so later writes through the source never affect the copy),
sized exactly to the source's size; the source's store entry is not
mutated; the elements are copied in order so the copy equals the source
element-wise; and if a copy-construction fails partway, everything
constructed so far in the new buffer has been destroyed when the new
storage is released — no object leaks. -/
theorem c5_copy_construction (s : Store α) (a : Nat) (h : a < s.length)
    (failAt : Option Nat) :
    (CopyConstructStore s a).2 ≠ a ∧
      (CopyConstructStore s a).1[(CopyConstructStore s a).2]? = some (s.getD a []) ∧
      (CopyConstructStore s a).1[a]? = s[a]? ∧
      (∀ c, (storeWrite (CopyConstructStore s a).1 a c)[(CopyConstructStore s a).2]?
          = (CopyConstructStore s a).1[(CopyConstructStore s a).2]?) ∧
      (match CopyConstructTracked (s.getD a []) failAt with
        | Except.ok b => b.capacity = (s.getD a []).length ∧ b.elems = s.getD a []
        | Except.error leaked => leaked = []) := by
  have hfreshNe : s.length ≠ a := by omega
  have hok : ∀ src : List α, liveObjs (writeSeq (rawBuf α src.length) 0 src) = src := by
    intro src
    have := writeSeq_fill src 0
    rw [Nat.add_zero] at this
    rw [rawBuf, this, liveObjs_fill]
  refine ⟨hfreshNe, List.getElem?_concat_length s (s.getD a []),
    List.getElem?_append_left h, ?_, ?_⟩
  · intro c
    exact List.getElem?_set_ne hfreshNe.symm
  · cases failAt with
    | none =>
      rw [show CopyConstructTracked (s.getD a []) none
          = Except.ok { elems := liveObjs (writeSeq (rawBuf α (s.getD a []).length) 0
              (s.getD a [])), capacity := (s.getD a []).length } from rfl]
      exact ⟨rfl, hok (s.getD a [])⟩
    | some j =>
      by_cases hj : j < (s.getD a []).length
      · simp only [CopyConstructTracked, uninitCopyN, hj, if_true]
        have hjt : ((s.getD a []).take j).length = j := by
          simp only [List.length_take]; omega
        show liveObjs (destroyRange (writeSeq (rawBuf α (s.getD a []).length) 0
          ((s.getD a []).take j)) 0 j) = []
        rw [show destroyRange (writeSeq (rawBuf α (s.getD a []).length) 0
              ((s.getD a []).take j)) 0 j
            = destroyRange (writeSeq (rawBuf α (s.getD a []).length) 0
              ((s.getD a []).take j)) 0 ((s.getD a []).take j).length by rw [hjt],
          writeSeq_rollback, hjt, destroyRange_rawBuf, liveObjs_rawBuf]
      · simp only [CopyConstructTracked, uninitCopyN, hj, if_false]
        refine ⟨?_, hok (s.getD a [])⟩
        trivial

/-- C5 witness: copying a store holding one two-element buffer. -/
theorem c5_copy_construction_witness :
    (CopyConstructStore [[(1 : Nat), 2]] 0).2 ≠ 0 ∧
      (CopyConstructStore [[(1 : Nat), 2]] 0).1[(CopyConstructStore [[(1 : Nat), 2]] 0).2]?
        = some [1, 2] := by
  have h := c5_copy_construction [[(1 : Nat), 2]] 0 (by decide) (some 1)
  exact ⟨h.1, h.2.1⟩

/-- C1, divergence witness: a full vector `[10]` (size = capacity = 1)
grown by `EmplaceBack 99`, where the relocation of old element 0 into
the new buffer throws after the new element was successfully
constructed at slot 1.  `size_`, the capacity and the existing element
are indeed unchanged, but `EmplaceBack` has no try/catch around the
relocation, so the newly constructed element 99 is still alive in the
temporary buffer when its `RawMemory` destructor frees the memory
without running destructors: the element is leaked, not destroyed,
contradicting the claim that every object constructed in the new buffer
is destroyed before the failure propagates. -/
theorem c1_emplaceback_relocation_failure_leak :
    EmplaceBackGrow (Vector.mk [(10 : Nat)] 1) 99 (some 0)
        = Except.error { vec := Vector.mk [10] 1, leaked := [99] } ∧
      ¬ (∀ f : PushFail Nat,
          EmplaceBackGrow (Vector.mk [(10 : Nat)] 1) 99 (some 0) = Except.error f →
            f.leaked = []) := by
  constructor
  · rfl
  · intro hall
    have := hall { vec := Vector.mk [10] 1, leaked := [99] } rfl
    simp at this

/-- C2, divergence witness: a full vector `[10, 20]`
(size = capacity = 2) with `Emplace` at position 1, where the prefix
transfer into the new buffer succeeds and the suffix transfer then
throws.  `MoveOrCopy` destroys its source elements at the end of each
call, so old element 0 was already destroyed when the prefix call
returned; after the suffix failure the catch block correctly destroys
everything constructed in the new buffer (no leak), but the old buffer
— which the vector still owns with `size_ = 2` — now holds only
`[destroyed, 20]` instead of the claimed intact `[10, 20]`. -/
theorem c2_emplace_suffix_failure_old_buffer :
    EmplaceGrow (Vector.mk [(10 : Nat), 20] 2) 1 99 none (some 0)
        = Except.error { oldBuf := [none, some 20], size := 2, leaked := [] } ∧
      ¬ (∀ f : EmplaceFail Nat,
          EmplaceGrow (Vector.mk [(10 : Nat), 20] 2) 1 99 none (some 0) = Except.error f →
            f.oldBuf = [some 10, some 20]) := by
  constructor
  · rfl
  · intro hall
    have := hall { oldBuf := [none, some 20], size := 2, leaked := [] } rfl
    simp at this

end AdvancedVector
